import Mathlib

/-!
Shallow embedding of the Moneyball edge/EV engine and prediction service
(`moneyball_ml_python/utils/edge_calculator.py` and
`moneyball_ml_python/prediction/predict.py`).

Python floats are modelled as rationals (`ℚ`); Python exceptions are
modelled with `Except PyErr`; every Python division is a checked division
(`qdiv`) so that `ZeroDivisionError` is represented faithfully.
-/

/-- Python exceptions that the modelled code can raise. -/
inductive PyErr where
  | valueError (msg : String)
  | zeroDivisionError
  | typeError
deriving DecidableEq

/-- The message carried by an exception, as `str(e)` would produce it. -/
def PyErr.msg : PyErr → String
  | .valueError s => s
  | .zeroDivisionError => "division by zero"
  | .typeError => "type error"

instance {ε α : Type} [DecidableEq ε] [DecidableEq α] :
    DecidableEq (Except ε α)
  | .ok x, .ok y =>
      if h : x = y then isTrue (by rw [h]) else isFalse (by simp [h])
  | .error x, .error y =>
      if h : x = y then isTrue (by rw [h]) else isFalse (by simp [h])
  | .ok _, .error _ => isFalse (by simp)
  | .error _, .ok _ => isFalse (by simp)

/-- Python division: raises `ZeroDivisionError` on a zero divisor. -/
def qdiv (a b : ℚ) : Except PyErr ℚ :=
  if b = 0 then .error .zeroDivisionError else .ok (a / b)

/-- Strip leading and trailing whitespace, as Python `float()` does. -/
def trimChars (l : List Char) : List Char :=
  ((l.dropWhile Char.isWhitespace).reverse.dropWhile Char.isWhitespace).reverse

/-- Split a character list on a separator, like Python `str.split(sep)`. -/
def splitChar (sep : Char) (l : List Char) : List (List Char) :=
  l.foldr
    (fun c acc =>
      if c = sep then [] :: acc
      else
        match acc with
        | h :: t => (c :: h) :: t
        | [] => [[c]])
    [[]]

def natOfDigits (l : List Char) : ℕ :=
  l.foldl (fun n c => 10 * n + (c.toNat - 48)) 0

/-- Model of Python `float(s)` on plain decimal literals: optional sign,
digits with at most one decimal point.  Returns `none` where Python would
raise `ValueError`. -/
def parseFloatChars (l : List Char) : Option ℚ :=
  let t := trimChars l
  let neg : Bool := match t with
    | '-' :: _ => true
    | _ => false
  let body : List Char := match t with
    | '-' :: r => r
    | '+' :: r => r
    | r => r
  let mag : Option ℚ :=
    match splitChar '.' body with
    | [ip] =>
        if ip ≠ [] && ip.all Char.isDigit then some (natOfDigits ip)
        else none
    | [ip, fp] =>
        if (ip ≠ [] || fp ≠ []) && ip.all Char.isDigit && fp.all Char.isDigit then
          some ((natOfDigits ip : ℚ) + (natOfDigits fp : ℚ) / (10 : ℚ) ^ fp.length)
        else none
    | _ => none
  mag.map (fun q => if neg then -q else q)

/-- Lexicographic comparison of strings by character code, used to model
Python string sorting in `sorted(features.keys())`. -/
def charListLe : List Char → List Char → Bool
  | [], _ => true
  | _ :: _, [] => false
  | a :: as, b :: bs =>
      if a.toNat < b.toNat then true
      else if a.toNat = b.toNat then charListLe as bs
      else false

def strLe (a b : String) : Bool := charListLe a.toList b.toList

/-- Odds input: Python passes either a number or a string (fractional
format expects a `"numerator/denominator"` string). -/
inductive OddsVal where
  | num (q : ℚ)
  | str (s : String)
deriving DecidableEq

/-- Python fractional-odds parsing: split the string on the slash and map
`float` over the parts; it succeeds only when the split yields exactly
two float-parseable parts, otherwise Python raises `ValueError`. -/
def parseFraction (s : String) : Option (ℚ × ℚ) :=
  match splitChar '/' s.toList with
  | [a, b] =>
      match parseFloatChars a, parseFloatChars b with
      | some n, some d => some (n, d)
      | _, _ => none
  | _ => none

/-- Embedding of `odds_to_implied_probability(odds, odds_format)`
(`edge_calculator.py` lines 140-182).  American odds ≤ 0 fall into the
negative branch `|odds| / (|odds| + 100)`; decimal odds are `1 / odds`
with no validation; fractional odds are parsed from a string. -/
def odds_to_implied_probability (odds : OddsVal) (odds_format : String) :
    Except PyErr ℚ :=
  if odds_format = "american" then
    match odds with
    | .num q => if q > 0 then qdiv 100 (q + 100) else qdiv |q| (|q| + 100)
    | .str _ => .error .typeError
  else if odds_format = "decimal" then
    match odds with
    | .num q => qdiv 1 q
    | .str _ => .error .typeError
  else if odds_format = "fractional" then
    match odds with
    | .str s =>
        match parseFraction s with
        | some (n, d) => qdiv d (n + d)
        | none => .error (.valueError "could not convert string to float")
    | .num _ => .error (.valueError "Fractional odds must be string in format numerator/denominator")
  else
    .error (.valueError ("Unsupported odds format: " ++ odds_format))

/-- Embedding of `odds_to_payout(odds, odds_format, bet_amount)`
(`edge_calculator.py` lines 220-257): total payout including stake. -/
def odds_to_payout (odds : OddsVal) (odds_format : String) (bet_amount : ℚ) :
    Except PyErr ℚ :=
  if odds_format = "american" then
    match odds with
    | .num q =>
        if q > 0 then
          (qdiv (bet_amount * q) 100).map (fun x => bet_amount + x)
        else
          (qdiv (bet_amount * 100) |q|).map (fun x => bet_amount + x)
    | .str _ => .error .typeError
  else if odds_format = "decimal" then
    match odds with
    | .num q => .ok (bet_amount * q)
    | .str _ => .error .typeError
  else if odds_format = "fractional" then
    match odds with
    | .str s =>
        match parseFraction s with
        | some (n, d) => (qdiv (bet_amount * n) d).map (fun x => bet_amount + x)
        | none => .error (.valueError "could not convert string to float")
    | .num _ => .error (.valueError "Fractional odds must be string")
  else
    .error (.valueError ("Unsupported odds format: " ++ odds_format))

/-- Embedding of `calculate_expected_value(model_probability, bookmaker_odds,
odds_format, bet_amount)` (`edge_calculator.py` lines 185-217). -/
def calculate_expected_value (model_probability : ℚ) (bookmaker_odds : OddsVal)
    (odds_format : String) (bet_amount : ℚ) : Except PyErr ℚ := do
  let payout ← odds_to_payout bookmaker_odds odds_format bet_amount
  let profit_if_win := payout - bet_amount
  let loss_if_loss := bet_amount
  pure (model_probability * profit_if_win - (1 - model_probability) * loss_if_loss)

/-- Result record of `calculate_edge` (`EdgeCalculation` dataclass). -/
structure EdgeCalculation where
  model_probability : ℚ
  implied_probability : ℚ
  edge : ℚ
  expected_value : ℚ
  recommended_side : String
  confidence : ℚ
deriving DecidableEq

/-- Embedding of `calculate_edge(model_probability, bookmaker_odds,
odds_format, edge_threshold, bet_amount)` (`edge_calculator.py` lines
52-137). -/
def calculate_edge (model_probability : ℚ) (bookmaker_odds : OddsVal)
    (odds_format : String) (edge_threshold : ℚ) (bet_amount : ℚ) :
    Except PyErr EdgeCalculation := do
  let implied_probability ← odds_to_implied_probability bookmaker_odds odds_format
  let edge := model_probability - implied_probability
  let ev ← calculate_expected_value model_probability bookmaker_odds odds_format bet_amount
  let recommended_side :=
    if edge > edge_threshold then "bet"
    else if edge < -edge_threshold then "pass"
    else "neutral"
  let confidence := min (|edge| * 2) 1
  pure {
    model_probability := model_probability
    implied_probability := implied_probability
    edge := edge
    expected_value := ev
    recommended_side := recommended_side
    confidence := confidence }

/-- The decimal-odds conversion performed at the top of
`calculate_kelly_criterion` (`edge_calculator.py` lines 284-293). -/
def kelly_decimal_odds (bookmaker_odds : OddsVal) (odds_format : String) :
    Except PyErr ℚ :=
  if odds_format = "american" then
    match bookmaker_odds with
    | .num q =>
        if q > 0 then (qdiv q 100).map (fun x => x + 1)
        else (qdiv 100 |q|).map (fun x => x + 1)
    | .str _ => .error .typeError
  else if odds_format = "decimal" then
    match bookmaker_odds with
    | .num q => .ok q
    | .str _ => .error .typeError
  else
    .error (.valueError "Kelly criterion requires american or decimal odds")

/-- Embedding of `calculate_kelly_criterion(model_probability,
bookmaker_odds, odds_format, fraction)` (`edge_calculator.py` lines
260-308). -/
def calculate_kelly_criterion (model_probability : ℚ) (bookmaker_odds : OddsVal)
    (odds_format : String) (fraction : ℚ) : Except PyErr ℚ := do
  let decimal_odds ← kelly_decimal_odds bookmaker_odds odds_format
  let b := decimal_odds - 1
  let p := model_probability
  let q := 1 - p
  let kelly_pct ← qdiv (b * p - q) b
  pure (max 0 (kelly_pct * fraction))

/-- A feature value supplied to the prediction service: a number, a
string, or Python `None`. -/
inductive Value where
  | num (q : ℚ)
  | str (s : String)
  | none
deriving DecidableEq

/-- Python `float(value)`: numbers pass through, strings are parsed
(`ValueError` on failure), `None` raises `TypeError`. -/
def pyFloat : Value → Except PyErr ℚ
  | .num q => .ok q
  | .str s =>
      match parseFloatChars s.toList with
      | some q => .ok q
      | Option.none => .error (.valueError ("could not convert string to float: " ++ s))
  | .none => .error .typeError

/-- Dictionary lookup on an association list (Python `dict` access). -/
def dlookup {α : Type} (k : String) : List (String × α) → Option α
  | [] => Option.none
  | p :: ps => if p.1 = k then some p.2 else dlookup k ps

/-- Python `sorted(features.keys())`. -/
def sortedKeys {α : Type} (features : List (String × α)) : List String :=
  List.insertionSort (fun a b : String => strLe a b) (features.map Prod.fst)

/-- The list comprehension of the fallback branch,
`[float(features[name]) for name in feature_names]`: Python evaluates
left to right and the first exception aborts the whole comprehension. -/
def coerceAll (features : List (String × Value)) : List String → Except PyErr (List ℚ)
  | [] => .ok []
  | name :: names => do
      let v ← pyFloat ((dlookup name features).getD Value.none)
      let vs ← coerceAll features names
      pure (v :: vs)

/-- Embedding of `PredictionService.prepare_features(features,
expected_features)` (`predict.py` lines 210-260).  The result list is the
single row of the returned `(1, N)` array.  With a non-empty expected
order each element is individually defended (missing → `0.0`, coercion
failure → `0.0`); with an empty expected order the sorted keys are used
and any coercion failure is caught by the outer handler, which returns
the degenerate `(1, 0)` array. -/
def prepare_features (features : List (String × Value))
    (expected_features : List String) : List ℚ :=
  if expected_features ≠ [] then
    expected_features.map (fun name =>
      let value := (dlookup name features).getD (Value.num 0)
      match pyFloat value with
      | .ok v => v
      | .error _ => 0)
  else
    match coerceAll features (sortedKeys features) with
    | .ok vs => vs
    | .error _ => []

/-- Metadata sidecar content as `_load_metadata` sees it: the file may be
absent, unreadable/malformed, or a parsed JSON object (in which the
`is_active` key may itself be absent). -/
inductive MetaSource where
  | absent
  | malformed
  | ok (is_active : Option Bool) (expected_features : List String)
deriving DecidableEq

/-- Parsed metadata dictionary. -/
structure Metadata where
  is_active : Option Bool
  expected_features : List String
deriving DecidableEq

/-- Embedding of `PredictionService._load_metadata` (`predict.py` lines
109-128): absent or malformed metadata defaults to
`{is_active: true, expected_features: []}`. -/
def load_metadata : MetaSource → Metadata
  | .absent => ⟨some true, []⟩
  | .malformed => ⟨some true, []⟩
  | .ok a e => ⟨a, e⟩

/-- Effective active flag: the metadata lookup of the key is_active with
default `true`. -/
def Metadata.effActive (m : Metadata) : Bool := m.is_active.getD true

/-- One model file found by the directory scan: its filename stem, its
metadata sidecar, and the outcome of `joblib.load` on it (an exception or
a deserialized model handle of type `M`). -/
structure ModelFile (M : Type) where
  stem : String
  meta : MetaSource
  loadResult : Except PyErr M

/-- In-memory state of `PredictionService`: the two dictionaries
`loaded_models` and `model_metadata` (handles are prepended, so `dlookup`
sees the most recent insertion first, matching dict overwrite). -/
structure PredictionService (M : Type) where
  loaded_models : List (String × M)
  model_metadata : List (String × Metadata)

/-- Processing of a single file inside the `for` loop of `load_models`
(`predict.py` lines 65-98): inactive models are skipped; a load failure
is caught and skipped; a successful load stores model and metadata. -/
def loadStep {M : Type} (svc : PredictionService M) (f : ModelFile M) :
    PredictionService M :=
  let metadata := load_metadata f.meta
  if metadata.effActive = false then svc
  else
    match f.loadResult with
    | .ok model =>
        { loaded_models := (f.stem, model) :: svc.loaded_models
          model_metadata := (f.stem, metadata) :: svc.model_metadata }
    | .error _ => svc

/-- Embedding of `PredictionService.load_models` (`predict.py` lines
39-107) over the list of discovered model files. -/
def load_models {M : Type} (files : List (ModelFile M)) : PredictionService M :=
  files.foldl loadStep ⟨[], []⟩

/-- A loaded model handle: either it supports `predict_proba` (returns a
two-class probability row `[P0, P1]`) or only `predict` (returns a single
value).  Scoring may raise, modelled by `Except`. -/
inductive Scorer where
  | proba (f : List ℚ → Except PyErr (ℚ × ℚ))
  | label (f : List ℚ → Except PyErr ℚ)

/-- Shapes of the non-None results of `PredictionService.predict`: a
success payload with probability fields, or an error payload carrying
only the error message and the model version. -/
inductive PredResult where
  | success (home_win_probability away_win_probability confidence : ℚ)
      (model_version : String)
  | failure (error : String) (model_version : String)
deriving DecidableEq

/-- The scoring branch of `predict` (`predict.py` lines 167-183): the
`predict_proba` capability yields `(home, away, confidence)` from the
two-class row `[P0, P1]` with `confidence = |P1 - 0.5| * 2`; the
label-only fallback yields fixed confidence `0.5`. -/
def score (model : Scorer) (feature_array : List ℚ) :
    Except PyErr (ℚ × ℚ × ℚ) :=
  match model with
  | .proba f => (f feature_array).map (fun pr => (pr.2, pr.1, |pr.2 - 1/2| * 2))
  | .label f => (f feature_array).map (fun v => (v, 1 - v, 1/2))

/-- Feature order that `predict` passes to `prepare_features`: the
expected_features entry of the metadata for the version, with the empty
dictionary and then the empty list as defaults. -/
def expectedFor (svc : PredictionService Scorer) (version : String) :
    List String :=
  ((dlookup version svc.model_metadata).getD ⟨some true, []⟩).expected_features

/-- Embedding of `PredictionService.predict(version, features)`
(`predict.py` lines 130-208).  Returns `none` when the version is not in
`loaded_models`; otherwise scoring errors are caught and converted to a
`failure` payload.  The advisory latency field is not modelled. -/
def predict (svc : PredictionService Scorer) (version : String)
    (features : List (String × Value)) : Option PredResult :=
  match dlookup version svc.loaded_models with
  | Option.none => Option.none
  | some model =>
      let feature_array := prepare_features features (expectedFor svc version)
      some (match score model feature_array with
        | .ok (h, a, c) => .success h a c version
        | .error e => .failure e.msg version)

/-! ## Claim theorems -/

/-- Evaluation of `calculate_kelly_criterion` once the decimal-odds
conversion has succeeded with a net-odds denominator `b = d - 1 ≠ 0`. -/
theorem kelly_eval (p fraction d : ℚ) (odds : OddsVal) (fmt : String)
    (hd : kelly_decimal_odds odds fmt = .ok d) (hb : d - 1 ≠ 0) :
    calculate_kelly_criterion p odds fmt fraction =
      .ok (max 0 (((d - 1) * p - (1 - p)) / (d - 1) * fraction)) := by
  unfold calculate_kelly_criterion
  rw [hd]
  simp [bind, Except.bind, qdiv, hb, pure, Except.pure]

/-- C6: for every model probability `p ∈ [0,1]` and every valid odds
value in american or decimal format, `calculate_kelly_criterion`
equals `max(0, kelly * fraction)` with `kelly = (b*p - (1-p)) / b` and
`b = decimal odds - 1`, and the result is never negative. -/
theorem calculate_kelly_criterion_spec (p fraction q : ℚ) (fmt : String)
    (_hp0 : 0 ≤ p) (_hp1 : p ≤ 1)
    (hv : (fmt = "american" ∧ q ≠ 0) ∨ (fmt = "decimal" ∧ 1 < q)) :
    ∃ d, kelly_decimal_odds (.num q) fmt = .ok d ∧
      calculate_kelly_criterion p (.num q) fmt fraction =
        .ok (max 0 (((d - 1) * p - (1 - p)) / (d - 1) * fraction)) ∧
      (0 : ℚ) ≤ max 0 (((d - 1) * p - (1 - p)) / (d - 1) * fraction) := by
  rcases hv with ⟨hfmt, hq⟩ | ⟨hfmt, hq⟩
  · subst hfmt
    rcases hq.lt_or_lt with hneg | hpos
    · have habs : |q| ≠ 0 := fun h => hq (abs_eq_zero.mp h)
      have hno : ¬ q > 0 := by linarith
      have hd : kelly_decimal_odds (.num q) "american" = .ok (100 / |q| + 1) := by
        simp [kelly_decimal_odds, qdiv, hno, habs, Except.map]
      have hb : (100 / |q| + 1) - 1 ≠ 0 := by
        have hpos2 : (0:ℚ) < 100 / |q| := div_pos (by norm_num) (abs_pos.mpr hq)
        intro h
        rw [add_sub_cancel_right] at h
        linarith
      exact ⟨_, hd, kelly_eval p fraction _ _ _ hd hb, le_max_left _ _⟩
    · have hd : kelly_decimal_odds (.num q) "american" = .ok (q / 100 + 1) := by
        simp [kelly_decimal_odds, qdiv, hpos, Except.map]
      have hb : (q / 100 + 1) - 1 ≠ 0 := by
        have hz : q / 100 ≠ 0 := div_ne_zero hq (by norm_num)
        intro h
        rw [add_sub_cancel_right] at h
        exact hz h
      exact ⟨_, hd, kelly_eval p fraction _ _ _ hd hb, le_max_left _ _⟩
  · subst hfmt
    have hd : kelly_decimal_odds (.num q) "decimal" = .ok q := by
      simp [kelly_decimal_odds]
    have hb : q - 1 ≠ 0 := by
      intro h
      rw [sub_eq_zero] at h
      rw [h] at hq
      exact lt_irrefl 1 hq
    exact ⟨_, hd, kelly_eval p fraction _ _ _ hd hb, le_max_left _ _⟩

/-- Witness for C6 at `p = 0.6`, American odds `-110`, quarter Kelly. -/
theorem calculate_kelly_criterion_spec_witness :
    ∃ d, kelly_decimal_odds (.num (-110)) "american" = .ok d ∧
      calculate_kelly_criterion (3/5) (.num (-110)) "american" (1/4) =
        .ok (max 0 (((d - 1) * (3/5) - (1 - 3/5)) / (d - 1) * (1/4))) ∧
      (0 : ℚ) ≤ max 0 (((d - 1) * (3/5) - (1 - 3/5)) / (d - 1) * (1/4)) :=
  calculate_kelly_criterion_spec (3/5) (1/4) (-110) "american" (by norm_num)
    (by norm_num) (Or.inl ⟨rfl, by norm_num⟩)

/-- C9: American odds exactly `0` make `odds_to_payout` and
`calculate_kelly_criterion` take the non-positive branch and divide by
`abs(odds) = 0`, raising `ZeroDivisionError`; likewise Kelly with
decimal odds exactly `1.0` divides by `b = 0` unguarded. -/
theorem degenerate_odds_division_by_zero :
    odds_to_payout (.num 0) "american" 100 = .error .zeroDivisionError ∧
    calculate_kelly_criterion (3/5) (.num 0) "american" (1/4) =
      .error .zeroDivisionError ∧
    calculate_kelly_criterion (3/5) (.num 1) "decimal" (1/4) =
      .error .zeroDivisionError := by
  refine ⟨?_, ?_, ?_⟩
  · simp [odds_to_payout, qdiv, Except.map]
  · simp [calculate_kelly_criterion, kelly_decimal_odds, qdiv, Except.map,
      bind, Except.bind]
  · simp [calculate_kelly_criterion, kelly_decimal_odds, qdiv, Except.map,
      bind, Except.bind]

/-- C10: `calculate_edge` performs no validation of `model_probability`:
for every `p` (including values outside `[0,1]`), given convertible
odds, it returns an `EdgeCalculation` normally, and the confidence is
always in `[0,1]` because it is `min(|edge| * 2, 1.0)`. -/
theorem calculate_edge_no_validation
    (p t amt ip po : ℚ) (odds : OddsVal) (fmt : String)
    (h1 : odds_to_implied_probability odds fmt = .ok ip)
    (h2 : odds_to_payout odds fmt amt = .ok po) :
    ∃ r, calculate_edge p odds fmt t amt = .ok r ∧
      r.model_probability = p ∧ 0 ≤ r.confidence ∧ r.confidence ≤ 1 := by
  refine ⟨⟨p, ip, p - ip, p * (po - amt) - (1 - p) * amt,
    if p - ip > t then "bet" else if p - ip < -t then "pass" else "neutral",
    min (|p - ip| * 2) 1⟩, ?_, rfl, ?_, ?_⟩
  · unfold calculate_edge calculate_expected_value
    rw [h1]
    simp only [bind, Except.bind, h2, pure, Except.pure]
  · exact le_min (by positivity) (by norm_num)
  · exact min_le_right _ _

/-- Witness for C10 with `p = 5`, far outside `[0,1]`. -/
theorem calculate_edge_no_validation_witness :
    ∃ r, calculate_edge 5 (.num (-110)) "american" (1/20) 100 = .ok r ∧
      r.model_probability = 5 ∧ 0 ≤ r.confidence ∧ r.confidence ≤ 1 :=
  calculate_edge_no_validation 5 (1/20) 100 (11/21) (2100/11) (.num (-110))
    "american"
    (by simp [odds_to_implied_probability, qdiv]; norm_num)
    (by simp [odds_to_payout, qdiv, Except.map]; norm_num)

theorem load_models_aux {M : Type} :
    ∀ (files : List (ModelFile M)) (acc : PredictionService M)
      (version : String) (model : M),
      dlookup version (files.foldl loadStep acc).loaded_models = some model →
      dlookup version acc.loaded_models = some model ∨
        ∃ f ∈ files, f.stem = version ∧ f.loadResult = .ok model ∧
          (load_metadata f.meta).effActive = true := by
  intro files
  induction files with
  | nil => intro acc version model h; exact Or.inl h
  | cons f fs ih =>
      intro acc version model h
      rw [List.foldl_cons] at h
      rcases ih (loadStep acc f) version model h with hacc | ⟨g, hg, rest⟩
      · unfold loadStep at hacc
        by_cases hact : (load_metadata f.meta).effActive = false
        · rw [if_pos hact] at hacc
          exact Or.inl hacc
        · rw [if_neg hact] at hacc
          cases hlr : f.loadResult with
          | ok m =>
              rw [hlr] at hacc
              rw [dlookup] at hacc
              by_cases hs : f.stem = version
              · rw [if_pos hs] at hacc
                injection hacc with hmm
                simp only at hmm
                refine Or.inr ⟨f, List.mem_cons_self _ _, hs, by rw [hlr, hmm], ?_⟩
                revert hact
                cases (load_metadata f.meta).effActive <;> simp
              · rw [if_neg hs] at hacc
                exact Or.inl hacc
          | error e =>
              rw [hlr] at hacc
              exact Or.inl hacc
      · exact Or.inr ⟨g, List.mem_cons_of_mem _ hg, rest⟩

/-- C2: after `load_models`, every artifact stored in the registry was
active (per the metadata handling of the code, where absent or malformed
metadata and an absent `is_active` key default to active) and holds a
successfully deserialized model handle; inactive artifacts and artifacts
whose deserialization raises are skipped and never stored, and skipping
one file never affects the loading of the remaining files. -/
theorem load_models_registry_invariant (M : Type) :
    (∀ (files : List (ModelFile M)) (version : String) (model : M),
      dlookup version (load_models files).loaded_models = some model →
      ∃ f ∈ files, f.stem = version ∧ f.loadResult = .ok model ∧
        (load_metadata f.meta).effActive = true) ∧
    (∀ (pre post : List (ModelFile M)) (f : ModelFile M),
      (load_metadata f.meta).effActive = false ∨ (∃ e, f.loadResult = .error e) →
      load_models (pre ++ f :: post) = load_models (pre ++ post)) := by
  constructor
  · intro files version model h
    rcases load_models_aux files ⟨[], []⟩ version model h with hnil | hfound
    · simp [dlookup] at hnil
    · exact hfound
  · intro pre post f hskip
    have hstep : ∀ acc : PredictionService M, loadStep acc f = acc := by
      intro acc
      unfold loadStep
      rcases hskip with hact | ⟨e, he⟩
      · rw [if_pos hact]
      · by_cases hact : (load_metadata f.meta).effActive = false
        · rw [if_pos hact]
        · rw [if_neg hact, he]
    unfold load_models
    rw [List.foldl_append, List.foldl_append, List.foldl_cons, hstep]

/-- Witness for C2 on a three-file batch: one good active file, one
whose deserialization raises, one inactive. -/
theorem load_models_registry_invariant_witness :
    ∃ f ∈ ([⟨"v1", .absent, .ok 42⟩, ⟨"bad", .absent, .error .typeError⟩,
        ⟨"off", .ok (some false) [], .ok 7⟩] : List (ModelFile ℕ)),
      f.stem = "v1" ∧ f.loadResult = .ok 42 ∧
        (load_metadata f.meta).effActive = true :=
  (load_models_registry_invariant ℕ).1
    [⟨"v1", .absent, .ok 42⟩, ⟨"bad", .absent, .error .typeError⟩,
      ⟨"off", .ok (some false) [], .ok 7⟩] "v1" 42 (by decide)

/-- C3: `predict` returns `none` exactly when the version is absent from
the registry; for a present version whose scoring raises, it returns the
structured error payload carrying the error message and the model
version (the `failure` shape, which has no probability fields), never
propagating the exception. -/
theorem predict_not_found_vs_scoring_error
    (svc : PredictionService Scorer) (version : String)
    (features : List (String × Value)) :
    (predict svc version features = Option.none ↔
      dlookup version svc.loaded_models = Option.none) ∧
    (∀ model e, dlookup version svc.loaded_models = some model →
      score model (prepare_features features (expectedFor svc version)) =
        .error e →
      predict svc version features = some (.failure e.msg version)) := by
  constructor
  · unfold predict
    cases h : dlookup version svc.loaded_models with
    | none => simp
    | some m => simp
  · intro model e hm hs
    unfold predict
    rw [hm]
    dsimp only
    rw [hs]

/-- Witness for C3: a one-model registry whose scorer always raises. -/
theorem predict_not_found_vs_scoring_error_witness :
    predict ⟨[("m", Scorer.proba (fun _ => .error (.valueError "boom")))], []⟩
      "m" [] = some (.failure "boom" "m") :=
  (predict_not_found_vs_scoring_error
    ⟨[("m", Scorer.proba (fun _ => .error (.valueError "boom")))], []⟩ "m" []).2
    (Scorer.proba (fun _ => .error (.valueError "boom")))
    (.valueError "boom") rfl rfl

/-- C7: concrete vectorizer behavior — padding of a missing feature
with `0.0`, coercion of a non-numeric value to `0.0` under an expected
order, and alphabetical key order when no expected order is given. -/
theorem prepare_features_concrete :
    prepare_features [("a", .num 1), ("b", .num 2)] ["a", "b", "c"] = [1, 2, 0] ∧
    prepare_features [("a", .str "bad")] ["a"] = [0] ∧
    prepare_features [("z", .num 3), ("a", .num 1), ("m", .num 2)] [] =
      [1, 2, 3] := by
  refine ⟨by decide, by decide, by decide⟩

/-- C4 counterexample: in the fallback branch (empty expected order) a
value that fails float coercion is not replaced by `0.0`; the outer
handler catches the exception and returns the degenerate `(1, 0)` array,
so the claimed shape `(1, number of keys)` is violated. -/
theorem prepare_features_fallback_counterexample :
    prepare_features [("a", Value.str "bad")] [] = [] ∧
    (prepare_features [("a", Value.str "bad")] []).length ≠ 1 := by
  refine ⟨by decide, by decide⟩

theorem dlookup_mem {α : Type} (k : String) (v : α) (l : List (String × α))
    (h : dlookup k l = some v) : (k, v) ∈ l := by
  induction l with
  | nil => simp [dlookup] at h
  | cons p ps ih =>
      rw [dlookup] at h
      by_cases hk : p.1 = k
      · rw [if_pos hk] at h
        injection h with h2
        have hp : (k, v) = p := by
          obtain ⟨a, b⟩ := p
          simp only [Prod.mk.injEq]
          exact ⟨hk.symm, h2.symm⟩
        rw [hp]
        exact List.mem_cons_self p ps
      · rw [if_neg hk] at h
        exact List.mem_cons_of_mem p (ih h)

theorem dlookup_isSome {α : Type} (k : String) (l : List (String × α))
    (h : k ∈ l.map Prod.fst) : ∃ v, dlookup k l = some v := by
  induction l with
  | nil => simp at h
  | cons p ps ih =>
      by_cases hk : p.1 = k
      · exact ⟨p.2, by rw [dlookup, if_pos hk]⟩
      · have hmem : k ∈ ps.map Prod.fst := by
          rcases List.mem_cons.mp h with heq | hmem2
          · exact absurd heq.symm hk
          · exact hmem2
        obtain ⟨v, hv⟩ := ih hmem
        exact ⟨v, by rw [dlookup, if_neg hk]; exact hv⟩

theorem dlookup_nodup {α : Type} (k : String) (v : α) (l : List (String × α))
    (hn : (l.map Prod.fst).Nodup) (hm : (k, v) ∈ l) : dlookup k l = some v := by
  induction l with
  | nil => simp at hm
  | cons p ps ih =>
      rw [List.map_cons, List.nodup_cons] at hn
      rcases List.mem_cons.mp hm with heq | hmem
      · rw [dlookup, if_pos (by rw [← heq])]
        rw [← heq]
  -- after rewriting p to (k, v), the head value is v
      · have hk : p.1 ≠ k := by
          intro hkk
          apply hn.1
          rw [hkk]
          exact List.mem_map_of_mem Prod.fst hmem
        rw [dlookup, if_neg hk]
        exact ih hn.2 hmem

theorem coerceAll_ok_of_all (features : List (String × Value)) :
    ∀ names : List String,
      (∀ name ∈ names, ∃ v,
        pyFloat ((dlookup name features).getD Value.none) = .ok v) →
      ∃ vs, coerceAll features names = .ok vs ∧ vs.length = names.length := by
  intro names
  induction names with
  | nil => intro _; exact ⟨[], rfl, rfl⟩
  | cons n ns ih =>
      intro h
      obtain ⟨v, hv⟩ := h n (List.mem_cons_self n ns)
      obtain ⟨vs, hvs, hlen⟩ := ih (fun m hm => h m (List.mem_cons_of_mem n hm))
      refine ⟨v :: vs, ?_, by simp [hlen]⟩
      rw [coerceAll]
      simp [hv, hvs, bind, Except.bind, pure, Except.pure]

theorem coerceAll_error_of_exists (features : List (String × Value)) :
    ∀ names : List String,
      (∃ name ∈ names, ∀ v,
        pyFloat ((dlookup name features).getD Value.none) ≠ .ok v) →
      ∃ e, coerceAll features names = .error e := by
  intro names
  induction names with
  | nil => rintro ⟨name, hmem, _⟩; simp at hmem
  | cons n ns ih =>
      rintro ⟨name, hmem, hfail⟩
      cases hp : pyFloat ((dlookup n features).getD Value.none) with
      | error e =>
          exact ⟨e, by rw [coerceAll]; simp [hp, bind, Except.bind]⟩
      | ok v =>
          have hname : name ∈ ns := by
            rcases List.mem_cons.mp hmem with heq | hmem2
            · exact absurd (heq ▸ hp) (hfail v)
            · exact hmem2
          obtain ⟨e, he⟩ := ih ⟨name, hname, hfail⟩
          exact ⟨e, by rw [coerceAll]; simp [hp, he, bind, Except.bind]⟩

/-- C4 (amended): `prepare_features` is total (never raises) and with a
non-empty expected order returns the row of individually-defended
coercions, of length `N = len(expectedOrder)`; with an empty expected
order it returns one value per key (sorted) only when every supplied
value coerces, and returns the degenerate `(1, 0)` row as soon as any
value fails coercion — the per-element `0.0` replacement applies only in
the expected-order branch. -/
theorem prepare_features_shape (features : List (String × Value))
    (expected : List String) :
    (expected ≠ [] →
      prepare_features features expected =
        expected.map (fun name =>
          match pyFloat ((dlookup name features).getD (Value.num 0)) with
          | .ok v => v
          | .error _ => 0) ∧
      (prepare_features features expected).length = expected.length) ∧
    (expected = [] →
      ((∀ kv ∈ features, ∃ v, pyFloat kv.2 = .ok v) →
        (prepare_features features []).length = features.length) ∧
      ((features.map Prod.fst).Nodup →
        (∃ kv ∈ features, ∀ v, pyFloat kv.2 ≠ .ok v) →
        prepare_features features [] = [])) := by
  constructor
  · intro hne
    constructor
    · rw [prepare_features, if_pos hne]
    · rw [prepare_features, if_pos hne, List.length_map]
  · intro he
    subst he
    constructor
    · intro hok
      have hnames : ∀ name ∈ sortedKeys features, ∃ v,
          pyFloat ((dlookup name features).getD Value.none) = .ok v := by
        intro name hmem
        have hkeys : name ∈ features.map Prod.fst :=
          (List.perm_insertionSort _ _).subset hmem
        obtain ⟨v2, hv2⟩ := dlookup_isSome name features hkeys
        have hmem2 : (name, v2) ∈ features := dlookup_mem name v2 features hv2
        obtain ⟨v, hv⟩ := hok (name, v2) hmem2
        exact ⟨v, by rw [hv2]; exact hv⟩
      obtain ⟨vs, hvs, hlen⟩ := coerceAll_ok_of_all features (sortedKeys features) hnames
      have hslen : (sortedKeys features).length = features.length := by
        rw [sortedKeys, (List.perm_insertionSort _ _).length_eq, List.length_map]
      rw [prepare_features]
      simp only [ne_eq, not_true_eq_false, if_false, hvs]
      rw [hlen, hslen]
    · rintro hnodup ⟨kv, hkv, hfail⟩
      have hkeymem : kv.1 ∈ features.map Prod.fst :=
        List.mem_map_of_mem Prod.fst hkv
      have hsorted : kv.1 ∈ sortedKeys features :=
        ((List.perm_insertionSort _ _).mem_iff).mpr hkeymem
      have hlook : dlookup kv.1 features = some kv.2 :=
        dlookup_nodup kv.1 kv.2 features hnodup (by rw [Prod.mk.eta]; exact hkv)
      have hfail2 : ∀ v,
          pyFloat ((dlookup kv.1 features).getD Value.none) ≠ .ok v := by
        rw [hlook]
        exact hfail
      obtain ⟨e, he⟩ :=
        coerceAll_error_of_exists features (sortedKeys features) ⟨kv.1, hsorted, hfail2⟩
      rw [prepare_features]
      simp only [ne_eq, not_true_eq_false, if_false, he]

/-- Witness for the amended C4 theorem at a one-feature input. -/
theorem prepare_features_shape_witness :
    (["a"] ≠ ([] : List String)) ∧
    (prepare_features [("a", Value.num 1)] ["a"]).length = ["a"].length :=
  ⟨by decide, ((prepare_features_shape [("a", Value.num 1)] ["a"]).1 (by decide)).2⟩

/-- C5 (divergence record): the code does not validate non-positive
decimal odds (decimal `-2` silently yields implied probability `-1/2`)
nor zero American odds (silently yields `0` through the non-positive
branch); it does raise on a malformed fractional string and on
non-string fractional input. -/
theorem odds_validation_divergence :
    odds_to_implied_probability (.num (-2)) "decimal" = .ok (-(1/2)) ∧
    odds_to_implied_probability (.num 0) "american" = .ok 0 ∧
    odds_to_implied_probability (.str "bad") "fractional" =
      .error (.valueError "could not convert string to float") ∧
    odds_to_implied_probability (.num (5/2)) "fractional" =
      .error (.valueError "Fractional odds must be string in format numerator/denominator") := by
  refine ⟨?_, ?_, ?_, ?_⟩
  · simp [odds_to_implied_probability, qdiv]
    norm_num
  · simp [odds_to_implied_probability, qdiv]
  · decide
  · decide

/-- C1 counterexample: with the negative threshold `t = -1` and zero
edge (`p = 0.5` against American odds `-100`, implied probability `0.5`),
the edge satisfies `p - implied < -t`, yet the code recommends `"bet"`
(the `elif` gives `"bet"` priority), not `"pass"` as the claim requires. -/
theorem calculate_edge_recommendation_counterexample :
    odds_to_implied_probability (.num (-100)) "american" = .ok (1/2) ∧
    ((1 : ℚ)/2 - 1/2 < -(-1 : ℚ)) ∧
    (calculate_edge (1/2) (.num (-100)) "american" (-1) 100).map
      EdgeCalculation.recommended_side = .ok "bet" := by
  refine ⟨?_, by norm_num, ?_⟩
  · simp [odds_to_implied_probability, qdiv]
    norm_num
  · simp only [calculate_edge, odds_to_implied_probability, calculate_expected_value,
      odds_to_payout, qdiv, bind, Except.bind, pure, Except.pure, Except.map]
    norm_num

/-- C1 (amended: threshold non-negative): for every model probability
`p`, odds value, format, and threshold `t ≥ 0`, `calculate_edge` returns
`recommended_side = "bet"` iff `p - impliedProbability(odds) > t`,
`"pass"` iff it is `< -t`, and `"neutral"` otherwise; the comparisons are
strict, so at `p - impliedProbability(odds) = t` the result is
`"neutral"`. -/
theorem calculate_edge_recommendation
    (p t amt implied : ℚ) (odds : OddsVal) (fmt : String) (r : EdgeCalculation)
    (ht : 0 ≤ t)
    (himp : odds_to_implied_probability odds fmt = .ok implied)
    (hr : calculate_edge p odds fmt t amt = .ok r) :
    (r.recommended_side = "bet" ↔ p - implied > t) ∧
    (r.recommended_side = "pass" ↔ p - implied < -t) ∧
    (r.recommended_side = "neutral" ↔ ¬ p - implied > t ∧ ¬ p - implied < -t) ∧
    (p - implied = t → r.recommended_side = "neutral") := by
  unfold calculate_edge at hr
  rw [himp] at hr
  simp only [bind, Except.bind] at hr
  cases hev : calculate_expected_value p odds fmt amt with
  | error e => rw [hev] at hr; exact absurd hr (by simp)
  | ok ev =>
      rw [hev] at hr
      simp only [pure, Except.pure, Except.ok.injEq] at hr
      subst hr
      dsimp only
      split_ifs with h1 h2
      · exact ⟨iff_of_true rfl h1,
          iff_of_false (by decide) (fun hlt => by linarith),
          iff_of_false (by decide) (fun hn => hn.1 h1),
          fun he => by linarith⟩
      · exact ⟨iff_of_false (by decide) h1,
          iff_of_true rfl h2,
          iff_of_false (by decide) (fun hn => hn.2 h2),
          fun he => by linarith⟩
      · exact ⟨iff_of_false (by decide) h1,
          iff_of_false (by decide) h2,
          iff_of_true rfl ⟨h1, h2⟩,
          fun _ => rfl⟩

/-- C8: for model probability `0.60`, American odds `-110`, threshold
`0.05`, `calculate_edge` yields implied probability within `0.001` of
`0.5238`, edge within `0.001` of `0.0762`, recommendation `"bet"`, and
confidence within `0.001` of `0.1524`; and for every American odds `o`
with `|o| ≥ 100`, the implied probability lies strictly in `(0, 1)`. -/
theorem calculate_edge_end_to_end :
    (∃ r, calculate_edge (3/5) (.num (-110)) "american" (1/20) 100 = .ok r ∧
      |r.implied_probability - 0.5238| ≤ 0.001 ∧
      |r.edge - 0.0762| ≤ 0.001 ∧
      r.recommended_side = "bet" ∧
      |r.confidence - 0.1524| ≤ 0.001) ∧
    (∀ o : ℚ, 100 ≤ |o| →
      ∃ ip, odds_to_implied_probability (.num o) "american" = .ok ip ∧
        0 < ip ∧ ip < 1) := by
  constructor
  · refine ⟨⟨3/5, 11/21, 8/105, 160/11, "bet", 16/105⟩, ?_, ?_⟩
    · simp only [calculate_edge, odds_to_implied_probability, calculate_expected_value,
        odds_to_payout, qdiv, bind, Except.bind, pure, Except.pure, Except.map]
      norm_num [min_def, abs_of_nonneg]
    · refine ⟨?_, ?_, rfl, ?_⟩ <;> rw [abs_le] <;> constructor <;> norm_num
  · intro o ho
    rcases lt_or_le 0 o with hpos | hneg
    · have h1 : (0:ℚ) < o + 100 := by linarith
      have hd : o + 100 ≠ 0 := ne_of_gt h1
      refine ⟨100 / (o + 100), ?_, div_pos (by norm_num) h1, ?_⟩
      · simp [odds_to_implied_probability, qdiv, hpos, hd]
      · rw [div_lt_one h1]
        linarith
    · have habs : |o| = -o := abs_of_nonpos hneg
      have hoabs : (0:ℚ) < |o| := by rw [habs]; rw [habs] at ho; linarith
      have h1 : (0:ℚ) < |o| + 100 := by linarith
      have hd : |o| + 100 ≠ 0 := ne_of_gt h1
      have hno : ¬ o > 0 := not_lt.mpr hneg
      refine ⟨|o| / (|o| + 100), ?_, div_pos hoabs h1, ?_⟩
      · simp [odds_to_implied_probability, qdiv, hno, hd]
      · rw [div_lt_one h1]
        linarith

/-- Witness for the quantified part of C8 at `o = -110`. -/
theorem calculate_edge_end_to_end_witness :
    (100 : ℚ) ≤ |(-110 : ℚ)| ∧
    ∃ ip, odds_to_implied_probability (.num (-110)) "american" = .ok ip ∧
      0 < ip ∧ ip < 1 :=
  ⟨by norm_num, calculate_edge_end_to_end.2 (-110) (by norm_num)⟩

/-- Witness for C1 at `p = 0.6`, American odds `-110`, `t = 0.05`. -/
theorem calculate_edge_recommendation_witness :
    (0 : ℚ) ≤ 1/20 ∧
    (((⟨3/5, 11/21, 3/5 - 11/21, 160/11, "bet", min (|3/5 - 11/21| * 2) 1⟩ :
        EdgeCalculation).recommended_side = "bet") ↔ (3/5 : ℚ) - 11/21 > 1/20) := by
  refine ⟨by norm_num, (calculate_edge_recommendation (3/5) (1/20) 100 (11/21)
    (.num (-110)) "american" _ (by norm_num) ?_ ?_).1⟩
  · simp [odds_to_implied_probability, qdiv]
    norm_num
  · simp only [calculate_edge, odds_to_implied_probability, calculate_expected_value,
      odds_to_payout, qdiv, bind, Except.bind, pure, Except.pure, Except.map]
    norm_num
